import Mathlib

/-!
Verification of the Bearn REST router core: a shallow embedding of
`src/routing/routeTrie.ts`, `src/routing/routerCore.ts` (RouterCore,
PathUtils, RouteExecutor) and the MiddlewareManager, together with proofs
of the specification's testable properties.

JavaScript strings are embedded as Lean `String` (a list of characters);
the JS string primitives used by the source (`startsWith`, `endsWith`,
`slice`, `split`, `join`, `indexOf`) are modelled as explicit functions on
the character list so that they can be reasoned about directly.
-/

namespace Bearn

/-- The closed set of HTTP methods used by the router
(`routeTrie.ts` constructor). -/
inductive HttpMethod where
  | GET | POST | PUT | DELETE | PATCH | HEAD | OPTIONS
deriving DecidableEq

/-! ### JS string primitives -/

/-- JS `s.startsWith(p)`. -/
def jsStartsWith (s p : String) : Bool :=
  p.data.isPrefixOf s.data

/-- JS `s.slice(n)` for a nonnegative `n` (drop the first `n` UTF-16 units;
modelled on characters, which agrees for BMP text). -/
def jsSliceFrom (s : String) (n : Nat) : String :=
  ⟨s.data.drop n⟩

/-- JS `s.slice(1)`. -/
def jsSlice1 (s : String) : String :=
  ⟨s.data.tail⟩

/-- JS `s.split(sep)[0]` for a one-character separator: the portion of the
string before the first occurrence of `sep`. -/
def takeUntilChar (sep : Char) (s : String) : String :=
  ⟨s.data.takeWhile (· ≠ sep)⟩

/-- JS `s.slice(s.indexOf(sep))` when `sep` occurs: the portion of the
string from the first occurrence of `sep` (inclusive); empty otherwise. -/
def fromChar (sep : Char) (s : String) : String :=
  ⟨s.data.dropWhile (· ≠ sep)⟩

/-- JS `s.includes(sep)` for a one-character needle. -/
def containsChar (sep : Char) (s : String) : Bool :=
  s.data.contains sep

/-- JS `s.split(sep)` for a one-character separator. -/
def splitOnChar (sep : Char) : List Char → List (List Char)
  | [] => [[]]
  | c :: rest =>
    if c = sep then [] :: splitOnChar sep rest
    else
      match splitOnChar sep rest with
      | [] => [[c]]
      | s :: ss => (c :: s) :: ss

/-- JS `parts.join('/')` (`Array.prototype.join` with separator `/`). -/
def joinSlash : List String → String
  | [] => ""
  | [s] => s
  | s :: rest => s ++ "/" ++ joinSlash rest

/-! ### PathUtils (`routerCore.ts`) -/

/-- `PathUtils.normalizePath`: treat the empty string as `/`, add a leading
slash when missing, and strip one trailing slash unless the whole path is
just `/`.  `input || '/'` is the JS falsy test, which for strings means
"empty"; `startsWith('/')` is a head test; `endsWith('/')` is a last-char
test; `slice(0, -1)` drops the last character. -/
def normalizePath (input : String) : String :=
  let raw := if input = "" then "/" else input
  let path := if raw.data.head? = some '/' then raw else ⟨'/' :: raw.data⟩
  if 1 < path.data.length ∧ path.data.getLast? = some '/' then
    ⟨path.data.dropLast⟩
  else path

/-- `RouteTrie.splitPath`: the root path yields a single empty-segment
marker; otherwise split on `/` and drop empty segments. -/
def splitPath (path : String) : List String :=
  if path = "/" then [""]
  else ((splitOnChar '/' path.data).map (fun cs => (⟨cs⟩ : String))).filter (· ≠ "")

/-! ### Parameter records

The JS code binds path parameters into a plain object (`params[name] = v`,
`delete params[name]`); we model the object as an association list with
overwrite-in-place assignment and key removal. -/

/-- The string-keyed record type used for `params` and `query`. -/
def Params := List (String × String)

instance : DecidableEq Params := by
  unfold Params; infer_instance

/-- JS object property assignment: overwrite an existing key in place,
otherwise append. -/
def paramsSet : Params → String → String → Params
  | [], k, v => [(k, v)]
  | (k0, v0) :: rest, k, v =>
    if k0 = k then (k0, v) :: rest else (k0, v0) :: paramsSet rest k v

/-- JS `delete params[k]`. -/
def paramsDelete (ps : Params) (k : String) : Params :=
  ps.filter (fun kv => kv.1 ≠ k)

/-- JS property read `params[k]`. -/
def paramsGet : Params → String → Option String
  | [], _ => none
  | (k0, v0) :: rest, k => if k0 = k then some v0 else paramsGet rest k

/-! ### Idempotence of `normalizePath` (claim C9) -/

/-- The precise failure condition: a string ending in two slashes loses
only one of them, so the normalized form still carries a trailing slash. -/
def endsTwoSlash (s : String) : Bool :=
  decide (['/', '/'] <:+ s.data)

theorem normalizePath_root : normalizePath "/" = "/" := by decide

theorem list_getLast?_concat {α : Type} (a : List α) (c : α) :
    (a ++ [c]).getLast? = some c := by
  simp [List.getLast?_concat]

/-- If the last character is a slash, the string splits as `a ++ ['/']`. -/
theorem exists_concat_of_getLast?_slash {cs : List Char}
    (h : cs.getLast? = some '/') : ∃ a, cs = a ++ ['/'] := by
  cases cs with
  | nil => simp at h
  | cons c rest =>
    refine ⟨(c :: rest).dropLast, ?_⟩
    have hne : c :: rest ≠ [] := by simp
    have := List.dropLast_append_getLast hne
    have hl : (c :: rest).getLast hne = '/' := by
      have := List.getLast?_eq_getLast (c :: rest) hne
      rw [this] at h
      exact Option.some.inj h
    rw [← hl]
    exact this.symm

theorem normalizePath_of_norm (s : String)
    (hne : s.data ≠ [])
    (hhead : s.data.head? = some '/')
    (hlast : ¬ (1 < s.data.length ∧ s.data.getLast? = some '/')) :
    normalizePath s = s := by
  have hs : s ≠ "" := by
    intro h; apply hne; rw [h]
  simp only [normalizePath, hs, if_false, hhead, if_true, reduceIte]
  first
  | rfl
  | rw [if_neg hlast]

/-- The normalized form is nonempty and starts with a slash. -/
theorem normalizePath_head (x : String) :
    (normalizePath x).data ≠ [] ∧ (normalizePath x).data.head? = some '/' := by
  unfold normalizePath
  set raw := if x = "" then "/" else x with hraw
  have hrawne : raw.data ≠ [] := by
    rw [hraw]
    by_cases hx : x = ""
    · simp [hx]
    · simp only [if_neg hx]
      intro hd
      apply hx
      cases x with
      | mk d => simp at hd; rw [hd]
  by_cases hh : raw.data.head? = some '/'
  · simp only [hh, if_pos rfl, if_true, reduceIte]
    by_cases hb : 1 < raw.data.length ∧ raw.data.getLast? = some '/'
    · rw [if_pos hb]
      obtain ⟨a, ha⟩ := exists_concat_of_getLast?_slash hb.2
      have hane : a ≠ [] := by
        intro h0
        rw [h0] at ha
        rw [ha] at hb
        simp at hb
      constructor
      · simp only [ha, List.dropLast_concat]
        exact hane
      · simp only [ha, List.dropLast_concat]
        rw [ha] at hh
        rwa [List.head?_append_of_ne_nil _ hane] at hh
    · rw [if_neg hb]
      exact ⟨hrawne, hh⟩
  · simp only [hh, if_false, reduceIte]
    by_cases hb : 1 < ('/' :: raw.data).length ∧ ('/' :: raw.data).getLast? = some '/'
    · rw [if_pos hb]
      obtain ⟨a, ha⟩ := exists_concat_of_getLast?_slash hb.2
      have hane : a ≠ [] := by
        intro h0
        rw [h0] at ha
        simp at ha
        exact hrawne ha
      constructor
      · simp only [ha, List.dropLast_concat]
        exact hane
      · simp only [ha, List.dropLast_concat]
        have : ('/' :: raw.data).head? = some '/' := rfl
        rw [ha] at this
        rwa [List.head?_append_of_ne_nil _ hane] at this
    · rw [if_neg hb]
      exact ⟨by simp, rfl⟩

/-- If the input does not end in a double slash, the normalized form has no
trailing slash (except for the root path). -/
theorem normalizePath_last (x : String) (h : endsTwoSlash x = false) :
    ¬ (1 < (normalizePath x).data.length ∧
       (normalizePath x).data.getLast? = some '/') := by
  have hsuf : ∀ t : List Char, ¬ (['/', '/'] <:+ x.data) →
      t ++ ['/', '/'] ≠ x.data := by
    intro t hns ht
    exact hns ⟨t, ht⟩
  have hxs : ¬ (['/', '/'] <:+ x.data) := by
    rw [endsTwoSlash] at h
    exact of_decide_eq_false h
  unfold normalizePath
  set raw := if x = "" then "/" else x with hraw
  have hrawsuf : ¬ (['/', '/'] <:+ raw.data) := by
    rw [hraw]
    by_cases hx : x = ""
    · simp only [if_pos hx]
      intro ⟨t, ht⟩
      have := congrArg List.length ht
      simp at this
    · simpa only [if_neg hx] using hxs
  by_cases hh : raw.data.head? = some '/'
  · simp only [hh, if_pos rfl, if_true, reduceIte]
    by_cases hb : 1 < raw.data.length ∧ raw.data.getLast? = some '/'
    · rw [if_pos hb]
      rintro ⟨hlen, hlast⟩
      obtain ⟨a, ha⟩ := exists_concat_of_getLast?_slash hb.2
      simp only [ha, List.dropLast_concat] at hlen hlast
      obtain ⟨b, hbb⟩ := exists_concat_of_getLast?_slash hlast
      apply hrawsuf
      rw [ha, hbb]
      exact ⟨b, by simp⟩
    · rwa [if_neg hb]
  · simp only [hh, if_false, reduceIte]
    by_cases hb : 1 < ('/' :: raw.data).length ∧ ('/' :: raw.data).getLast? = some '/'
    · rw [if_pos hb]
      rintro ⟨hlen, hlast⟩
      obtain ⟨a, ha⟩ := exists_concat_of_getLast?_slash hb.2
      simp only [ha, List.dropLast_concat] at hlen hlast
      obtain ⟨b, hbb⟩ := exists_concat_of_getLast?_slash hlast
      rw [hbb] at ha
      -- '/' :: raw.data = b ++ ['/', '/'], so raw ends in a double slash
      -- unless b is empty, in which case raw.data = ['/'] and the head
      -- test would have succeeded.
      cases b with
      | nil =>
        rw [hbb] at hlen
        simp at hlen
      | cons c bs =>
        apply hrawsuf
        simp only [List.append_assoc, List.cons_append, List.singleton_append] at ha
        exact ⟨bs, (List.cons.inj ha).2.symm⟩
    · rwa [if_neg hb]

/-- C9 counterexample: `normalizePath` is not idempotent on all strings.
Only one trailing slash is stripped, so `normalizePath "///" = "//"` while
a second application yields `"/"`. -/
theorem normalizePath_not_idempotent :
    normalizePath (normalizePath "///") ≠ normalizePath "///" := by decide

/-- C9 (amended): `normalizePath` is idempotent on every string that does
not end in two consecutive slashes; with two or more trailing slashes only
one is stripped, so normalization is not idempotent there. -/
theorem normalizePath_idem_of_not_endsTwoSlash (x : String)
    (h : endsTwoSlash x = false) :
    normalizePath (normalizePath x) = normalizePath x := by
  obtain ⟨hne, hhead⟩ := normalizePath_head x
  exact normalizePath_of_norm _ hne hhead (normalizePath_last x h)

/-- Witness for the amended C9 theorem at the concrete input `"/a/"`. -/
theorem normalizePath_idem_witness :
    endsTwoSlash "/a/" = false ∧
    normalizePath (normalizePath "/a/") = normalizePath "/a/" :=
  ⟨by decide, normalizePath_idem_of_not_endsTwoSlash "/a/" (by decide)⟩

/-! ### Handler and middleware behaviours

JavaScript handlers are arbitrary functions `(req, res, next) => ...`.
The routing claims depend only on how a handler interacts with the chain
(whether it calls `next`, with or without an error, throws synchronously,
returns a rejected promise, or finalizes the response), so a handler is
embedded as a behaviour script over those interactions. -/

/-- Behaviour of a middleware function (global chain of the
MiddlewareManager, or a route-local chain of the RouteExecutor):
* `nextOk` — synchronously calls `next()` and returns.
* `nextErr e` — synchronously calls `next(e)`.
* `throwSync e` — throws `e` synchronously.
* `rejectPromise e` — returns a promise that rejects with `e`, without
  ever calling `next`.
* `sendThenNextOk st b` — finalizes the response with `status(st).send(b)`
  and then calls `next()`.
* `sendThenNextErr st b e` — finalizes the response and calls `next(e)`.
* `sendOnly st b` — finalizes the response and never calls `next`. -/
inductive MWBehavior where
  | nextOk
  | nextErr (e : String)
  | throwSync (e : String)
  | rejectPromise (e : String)
  | sendThenNextOk (st : Nat) (b : String)
  | sendThenNextErr (st : Nat) (b : String) (e : String)
  | sendOnly (st : Nat) (b : String)
deriving DecidableEq

/-- Behaviour of a terminal route handler:
* `hok` — returns without touching the response.
* `hsend st b` — `res.status(st).send(b)` and returns.
* `hthrow e` — throws `e` synchronously.
* `hnextErr e` — calls `next(e)`. -/
inductive HBehavior where
  | hok
  | hsend (st : Nat) (b : String)
  | hthrow (e : String)
  | hnextErr (e : String)
deriving DecidableEq

/-- A registered route (`Route` of `types.ts`).  `addRoute` compiles, for
a path containing `:`, a regular expression from the normalized path;
the compiled regex is an own property of the route object and is copied
unchanged when `getRoutes` re-prefixes a mounted route's `path`, so it is
stored here as the path string it was compiled from (`regexSource`),
`none` when the path has no `:`. -/
structure Route where
  method : HttpMethod
  path : String
  handler : HBehavior
  middlewares : List MWBehavior
  regexSource : Option String
deriving DecidableEq

/-! ### RouteTrie (`routeTrie.ts`) -/

/-- A node of the route trie (`TrieNode`).  `children` is a JS `Map`
keyed by segment (insertion-ordered association list);  `handlers` maps
HTTP methods to routes. -/
inductive TrieNode where
  | mk
    (segment : String)
    (handlers : List (HttpMethod × Route))
    (children : List (String × TrieNode))
    (paramChild : Option TrieNode)
    (wildcardChild : Option TrieNode)
    (isParam : Bool)
    (paramName : Option String)

def TrieNode.segment : TrieNode → String
  | .mk s _ _ _ _ _ _ => s

def TrieNode.handlers : TrieNode → List (HttpMethod × Route)
  | .mk _ h _ _ _ _ _ => h

def TrieNode.children : TrieNode → List (String × TrieNode)
  | .mk _ _ c _ _ _ _ => c

def TrieNode.paramChild : TrieNode → Option TrieNode
  | .mk _ _ _ p _ _ _ => p

def TrieNode.wildcardChild : TrieNode → Option TrieNode
  | .mk _ _ _ _ w _ _ => w

def TrieNode.isParam : TrieNode → Bool
  | .mk _ _ _ _ _ b _ => b

def TrieNode.paramName : TrieNode → Option String
  | .mk _ _ _ _ _ _ n => n

/-- JS `Map.prototype.get`: first entry with the given key. -/
def mapGet {κ α : Type} [DecidableEq κ] : List (κ × α) → κ → Option α
  | [], _ => none
  | (k0, v0) :: rest, k => if k0 = k then some v0 else mapGet rest k

/-- JS `Map.prototype.set`: overwrite an existing key in place, otherwise
append (insertion order preserved). -/
def mapSet {κ α : Type} [DecidableEq κ] : List (κ × α) → κ → α → List (κ × α)
  | [], k, v => [(k, v)]
  | (k0, v0) :: rest, k, v =>
    if k0 = k then (k0, v) :: rest else (k0, v0) :: mapSet rest k v

/-- `RouteTrie.createTrieNode`. -/
def createTrieNode (segment : String) (isParam : Bool := false)
    (paramName : Option String := none) : TrieNode :=
  .mk segment [] [] none none isParam paramName

def TrieNode.setHandler : TrieNode → HttpMethod → Route → TrieNode
  | .mk s h c p w b n, m, r => .mk s (mapSet h m r) c p w b n

def TrieNode.setChild : TrieNode → String → TrieNode → TrieNode
  | .mk s h c p w b n, seg, child => .mk s h (mapSet c seg child) p w b n

def TrieNode.setParam : TrieNode → TrieNode → TrieNode
  | .mk s h c _ w b n, child => .mk s h c (some child) w b n

def TrieNode.setWildcard : TrieNode → TrieNode → TrieNode
  | .mk s h c p _ b n, child => .mk s h c p (some child) b n

/-- The loop body of `RouteTrie.insertRoute`, by recursion on the
remaining segments.  Empty segments are skipped (`continue`); a segment
starting with `:` goes to (or creates) the parameter child, remembering
`segment.slice(1)` as the parameter name only on creation; a bare `*`
goes to (or creates) the wildcard child and terminates the walk
(`break`); any other segment follows (or creates) a static child.  The
route is recorded in the final node's handler map. -/
def insertSegs (method : HttpMethod) (route : Route) :
    List String → TrieNode → TrieNode
  | [], node => node.setHandler method route
  | seg :: rest, node =>
    if seg = "" then insertSegs method route rest node
    else if jsStartsWith seg ":" then
      let child := node.paramChild.getD
        (createTrieNode seg true (some (jsSlice1 seg)))
      node.setParam (insertSegs method route rest child)
    else if seg = "*" then
      let child := node.wildcardChild.getD (createTrieNode seg true)
      node.setWildcard (child.setHandler method route)
    else
      let child := (mapGet node.children seg).getD (createTrieNode seg)
      node.setChild seg (insertSegs method route rest child)

/-- The per-method trie roots (`methodTries`). -/
def RouteTrie := HttpMethod → TrieNode

/-- The freshly constructed `RouteTrie`: a root node per method. -/
def emptyRouteTrie : RouteTrie := fun _ => createTrieNode ""

/-- `RouteTrie.insertRoute`. -/
def insertRoute (method : HttpMethod) (route : Route) (t : RouteTrie) :
    RouteTrie :=
  fun m =>
    if m = method then insertSegs method route (splitPath route.path) (t m)
    else t m

/-- The recursive `search` closure of `RouteTrie.searchRoute`, threading
the shared mutable `params` object.  At a node: exhausted segments read
the node's handler; an empty segment fails; otherwise the static child is
tried first, then the parameter child (binding the segment and deleting
the binding again on failure), then the wildcard child (binding the
joined remaining segments to `*` and not descending further). -/
def searchSegs (method : HttpMethod) :
    List String → TrieNode → Params → Option Route × Params
  | [], node, params => (mapGet node.handlers method, params)
  | seg :: rest, node, params =>
    if seg = "" then (none, params)
    else
      let static :=
        match mapGet node.children seg with
        | some child => searchSegs method rest child params
        | none => (none, params)
      match static with
      | (some r, ps) => (some r, ps)
      | (none, ps) =>
        let viaParam :=
          match node.paramChild with
          | some pc =>
            match pc.paramName with
            | some name =>
              if name = "" then (none, ps)
              else
                match searchSegs method rest pc (paramsSet ps name seg) with
                | (some r, ps2) => (some r, ps2)
                | (none, ps2) => (none, paramsDelete ps2 name)
            | none => (none, ps)
          | none => (none, ps)
        match viaParam with
        | (some r, ps2) => (some r, ps2)
        | (none, ps2) =>
          match node.wildcardChild with
          | some wc =>
            (mapGet wc.handlers method, paramsSet ps2 "*" (joinSlash (seg :: rest)))
          | none => (none, ps2)

/-- `RouteTrie.searchRoute`. -/
def searchRoute (t : RouteTrie) (method : HttpMethod) (path : String) :
    Option (Route × Params) :=
  match searchSegs method (splitPath path) (t method) [] with
  | (some r, params) => some (r, params)
  | (none, _) => none

/-- Pure static descent: follow only literal (static) edges and read the
final node's handler.  A complete static match in this sense is exactly
"a static child leads to a complete match" at every level. -/
def lookupStatic (method : HttpMethod) : List String → TrieNode → Option Route
  | [], node => mapGet node.handlers method
  | seg :: rest, node =>
    if seg = "" then none
    else
      match mapGet node.children seg with
      | some child => lookupStatic method rest child
      | none => none

/-- Concrete routes used in the matching scenarios. -/
def routeUsersMe : Route := ⟨.GET, "/users/me", .hok, [], none⟩

def routeUsersParam : Route := ⟨.GET, "/users/:id", .hok, [], some "/users/:id"⟩

def routeUsersMeProfile : Route := ⟨.GET, "/users/me/profile", .hok, [], none⟩

def routeFilesWildcard : Route := ⟨.GET, "/files/*", .hok, [], none⟩

theorem searchSegs_of_lookupStatic (method : HttpMethod) :
    ∀ (segs : List String) (node : TrieNode) (params : Params) (r : Route),
      lookupStatic method segs node = some r →
      searchSegs method segs node params = (some r, params) := by
  intro segs
  induction segs with
  | nil =>
    intro node params r h
    simpa [searchSegs, lookupStatic] using h
  | cons seg rest ih =>
    intro node params r h
    rw [lookupStatic] at h
    by_cases hseg : seg = ""
    · rw [if_pos hseg] at h; exact absurd h (by simp)
    · rw [if_neg hseg] at h
      cases hc : mapGet node.children seg with
      | none => rw [hc] at h; exact absurd h (by simp)
      | some child =>
        rw [hc] at h
        simp only at h
        simp only [searchSegs, if_neg hseg, hc, ih child params r h]

/-- C1: trie lookup prefers a static child that leads to a complete match
(a pure static descent ending in a handler for the method) over the
parameter and wildcard alternatives, leaving `params` untouched; if the
static branch fails deeper, the parameter branch at the same level is
still tried (backtracking); and concretely, with `/users/me` and
`/users/:id` both registered (in either order) a request for `/users/me`
resolves to the literal route, while with `/users/me/profile` and
`/users/:id` registered a request for `/users/me` backtracks into the
parameter route. -/
theorem trie_static_over_param_over_wildcard :
    (∀ (method : HttpMethod) (segs : List String) (node : TrieNode)
       (params : Params) (r : Route),
       lookupStatic method segs node = some r →
       searchSegs method segs node params = (some r, params)) ∧
    (∀ (method : HttpMethod) (seg : String) (rest : List String)
       (node child pc : TrieNode) (params : Params) (name : String)
       (r : Route) (ps2 : Params),
       seg ≠ "" →
       mapGet node.children seg = some child →
       (searchSegs method rest child params).1 = none →
       node.paramChild = some pc →
       pc.paramName = some name →
       name ≠ "" →
       searchSegs method rest pc
         (paramsSet (searchSegs method rest child params).2 name seg) =
         (some r, ps2) →
       searchSegs method (seg :: rest) node params = (some r, ps2)) ∧
    searchRoute (insertRoute .GET routeUsersParam
        (insertRoute .GET routeUsersMe emptyRouteTrie)) .GET "/users/me" =
      some (routeUsersMe, []) ∧
    searchRoute (insertRoute .GET routeUsersMe
        (insertRoute .GET routeUsersParam emptyRouteTrie)) .GET "/users/me" =
      some (routeUsersMe, []) ∧
    searchRoute (insertRoute .GET routeUsersParam
        (insertRoute .GET routeUsersMeProfile emptyRouteTrie)) .GET "/users/me" =
      some (routeUsersParam, [("id", "me")]) := by
  refine ⟨searchSegs_of_lookupStatic, ?_, by decide, by decide, by decide⟩
  intro method seg rest node child pc params name r ps2
    hseg hchild hfail hpc hname hne hok
  rcases hsc : searchSegs method rest child params with ⟨r1, ps⟩
  rw [hsc] at hfail hok
  simp only at hfail
  subst hfail
  simp only at hok
  simp only [searchSegs, if_neg hseg, hchild, hsc, hpc, hname, hne,
    if_false, reduceIte, hok]

/-- The trie holding `/users/me` and `/users/:id` (in that registration
order), used as a concrete witness input. -/
def demoTrieMeParam : RouteTrie :=
  insertRoute .GET routeUsersParam (insertRoute .GET routeUsersMe emptyRouteTrie)

/-- Witness for C1: on the trie holding `/users/me` and `/users/:id`, the
static descent for `users/me` succeeds with the literal route, and the full
search therefore returns it with no parameter bindings. -/
theorem trie_static_over_param_witness :
    lookupStatic .GET ["users", "me"] (demoTrieMeParam .GET) =
      some routeUsersMe ∧
    searchSegs .GET ["users", "me"] (demoTrieMeParam .GET) [] =
      (some routeUsersMe, []) :=
  ⟨by decide,
   trie_static_over_param_over_wildcard.1 .GET ["users", "me"]
     (demoTrieMeParam .GET) [] routeUsersMe (by decide)⟩

/-! ### Parameter binding (claim C2) -/

/-- A path-pattern segment of a registered route: a literal segment or a
named `:name` parameter. -/
inductive Seg where
  | lit (s : String)
  | prm (name : String)
deriving DecidableEq

/-- The registered-path token for a pattern segment (`:name` carries a
leading colon). -/
def Seg.patTok : Seg → String
  | .lit s => s
  | .prm n => ⟨':' :: n.data⟩

/-- The request-path token for a pattern segment under a substitution `σ`
of parameter values. -/
def Seg.reqTok (σ : String → String) : Seg → String
  | .lit s => s
  | .prm n => σ n

/-- The parameter names of a pattern, in left-to-right order. -/
def patternNames : List Seg → List String
  | [] => []
  | .lit _ :: rest => patternNames rest
  | .prm n :: rest => n :: patternNames rest

/-- The bindings produced by matching a pattern under substitution `σ`: in
left-to-right order each parameter name is assigned its substituted
value. -/
def bindAll (σ : String → String) : List Seg → Params → Params
  | [], ps => ps
  | .lit _ :: rest, ps => bindAll σ rest ps
  | .prm n :: rest, ps => bindAll σ rest (paramsSet ps n (σ n))

/-- Well-formedness of one pattern segment: a literal is nonempty and is
neither a parameter marker nor the wildcard; a parameter name is
nonempty. -/
def segWF : Seg → Bool
  | .lit s => s ≠ "" && !(jsStartsWith s ":") && s ≠ "*"
  | .prm n => n ≠ ""

theorem stringMkData (s : String) : (⟨s.data⟩ : String) = s := by
  cases s; rfl

theorem stringMkNe (c : Char) (cs : List Char) : (⟨c :: cs⟩ : String) ≠ "" := by
  intro h
  have : (c :: cs) = "".data := congrArg String.data h
  simp at this

@[simp] theorem setHandler_handlers (node : TrieNode) (m : HttpMethod)
    (r : Route) : (node.setHandler m r).handlers = mapSet node.handlers m r := by
  cases node; rfl

@[simp] theorem setHandler_children (node : TrieNode) (m : HttpMethod)
    (r : Route) : (node.setHandler m r).children = node.children := by
  cases node; rfl

@[simp] theorem setHandler_paramChild (node : TrieNode) (m : HttpMethod)
    (r : Route) : (node.setHandler m r).paramChild = node.paramChild := by
  cases node; rfl

@[simp] theorem setHandler_wildcardChild (node : TrieNode) (m : HttpMethod)
    (r : Route) : (node.setHandler m r).wildcardChild = node.wildcardChild := by
  cases node; rfl

@[simp] theorem setHandler_paramName (node : TrieNode) (m : HttpMethod)
    (r : Route) : (node.setHandler m r).paramName = node.paramName := by
  cases node; rfl

@[simp] theorem setChild_children (node : TrieNode) (seg : String)
    (c : TrieNode) : (node.setChild seg c).children = mapSet node.children seg c := by
  cases node; rfl

@[simp] theorem setChild_handlers (node : TrieNode) (seg : String)
    (c : TrieNode) : (node.setChild seg c).handlers = node.handlers := by
  cases node; rfl

@[simp] theorem setChild_paramChild (node : TrieNode) (seg : String)
    (c : TrieNode) : (node.setChild seg c).paramChild = node.paramChild := by
  cases node; rfl

@[simp] theorem setChild_wildcardChild (node : TrieNode) (seg : String)
    (c : TrieNode) : (node.setChild seg c).wildcardChild = node.wildcardChild := by
  cases node; rfl

@[simp] theorem setChild_paramName (node : TrieNode) (seg : String)
    (c : TrieNode) : (node.setChild seg c).paramName = node.paramName := by
  cases node; rfl

@[simp] theorem setParam_paramChild (node c : TrieNode) :
    (node.setParam c).paramChild = some c := by cases node; rfl

@[simp] theorem setParam_children (node c : TrieNode) :
    (node.setParam c).children = node.children := by cases node; rfl

@[simp] theorem setParam_handlers (node c : TrieNode) :
    (node.setParam c).handlers = node.handlers := by cases node; rfl

@[simp] theorem setParam_wildcardChild (node c : TrieNode) :
    (node.setParam c).wildcardChild = node.wildcardChild := by cases node; rfl

@[simp] theorem setParam_paramName (node c : TrieNode) :
    (node.setParam c).paramName = node.paramName := by cases node; rfl

@[simp] theorem setWildcard_wildcardChild (node c : TrieNode) :
    (node.setWildcard c).wildcardChild = some c := by cases node; rfl

@[simp] theorem setWildcard_children (node c : TrieNode) :
    (node.setWildcard c).children = node.children := by cases node; rfl

@[simp] theorem setWildcard_handlers (node c : TrieNode) :
    (node.setWildcard c).handlers = node.handlers := by cases node; rfl

@[simp] theorem setWildcard_paramChild (node c : TrieNode) :
    (node.setWildcard c).paramChild = node.paramChild := by cases node; rfl

@[simp] theorem setWildcard_paramName (node c : TrieNode) :
    (node.setWildcard c).paramName = node.paramName := by cases node; rfl

@[simp] theorem createTrieNode_fields (seg : String) (b : Bool)
    (pn : Option String) :
    (createTrieNode seg b pn).handlers = [] ∧
    (createTrieNode seg b pn).children = [] ∧
    (createTrieNode seg b pn).paramChild = none ∧
    (createTrieNode seg b pn).wildcardChild = none ∧
    (createTrieNode seg b pn).paramName = pn :=
  ⟨rfl, rfl, rfl, rfl, rfl⟩

/-- Inserting never changes a node's `paramName`. -/
theorem insertSegs_paramName (m : HttpMethod) (r : Route) :
    ∀ (segs : List String) (node : TrieNode),
      (insertSegs m r segs node).paramName = node.paramName := by
  intro segs
  induction segs with
  | nil => intro node; simp [insertSegs]
  | cons seg rest ih =>
    intro node
    rw [insertSegs]
    split
    · exact ih node
    · split
      · simp
      · split
        · simp
        · simp

/-- A node with no handlers, children, parameter child or wildcard child
(as produced by `createTrieNode`). -/
def bareNode (node : TrieNode) : Prop :=
  node.handlers = [] ∧ node.children = [] ∧
  node.paramChild = none ∧ node.wildcardChild = none

theorem bareNode_create (seg : String) (b : Bool) (pn : Option String) :
    bareNode (createTrieNode seg b pn) := ⟨rfl, rfl, rfl, rfl⟩

@[simp] theorem paramsGet_paramsSet_same (ps : Params) (k v : String) :
    paramsGet (paramsSet ps k v) k = some v := by
  induction ps with
  | nil => simp [paramsSet, paramsGet]
  | cons kv rest ih =>
    obtain ⟨k0, v0⟩ := kv
    by_cases hk : k0 = k
    · simp [paramsSet, paramsGet, hk]
    · simp [paramsSet, paramsGet, hk, ih]

theorem paramsGet_paramsSet_other (ps : Params) (k k1 v : String)
    (h : k1 ≠ k) : paramsGet (paramsSet ps k v) k1 = paramsGet ps k1 := by
  induction ps with
  | nil => simp [paramsSet, paramsGet, Ne.symm h]
  | cons kv rest ih =>
    obtain ⟨k0, v0⟩ := kv
    by_cases hk : k0 = k
    · subst hk
      simp [paramsSet, paramsGet, Ne.symm h]
    · simp [paramsSet, paramsGet, hk, ih]

theorem paramsGet_bindAll_not_mem (σ : String → String) :
    ∀ (pattern : List Seg) (ps : Params) (n : String),
      n ∉ patternNames pattern →
      paramsGet (bindAll σ pattern ps) n = paramsGet ps n := by
  intro pattern
  induction pattern with
  | nil => intro ps n _; rfl
  | cons s rest ih =>
    intro ps n hn
    cases s with
    | lit l => exact ih ps n (by simpa [patternNames] using hn)
    | prm m =>
      have hnm : n ≠ m := by
        intro h; exact hn (by simp [patternNames, h])
      have hrest : n ∉ patternNames rest := by
        intro h; exact hn (by simp [patternNames, h])
      rw [bindAll, ih _ n hrest, paramsGet_paramsSet_other _ _ _ _ hnm]

theorem paramsGet_bindAll_mem (σ : String → String) :
    ∀ (pattern : List Seg) (ps : Params) (n : String),
      (patternNames pattern).Nodup →
      n ∈ patternNames pattern →
      paramsGet (bindAll σ pattern ps) n = some (σ n) := by
  intro pattern
  induction pattern with
  | nil => intro ps n _ h; simp [patternNames] at h
  | cons s rest ih =>
    intro ps n hnd hn
    cases s with
    | lit l =>
      exact ih ps n (by simpa [patternNames] using hnd)
        (by simpa [patternNames] using hn)
    | prm m =>
      simp only [patternNames] at hn hnd
      rw [List.nodup_cons] at hnd
      rw [bindAll]
      rcases List.mem_cons.mp hn with hnm | hmem
      · subst hnm
        rw [paramsGet_bindAll_not_mem σ rest _ n hnd.1]
        exact paramsGet_paramsSet_same ps n (σ n)
      · exact ih _ n hnd.2 hmem

/-- Searching the request tokens of a pattern in the trie obtained by
inserting that pattern's registered tokens into a bare node succeeds with
the inserted route, binding every parameter name to its substituted
value in left-to-right order. -/
theorem searchSegs_insert_pattern (m : HttpMethod) (route : Route)
    (σ : String → String) :
    ∀ (pattern : List Seg) (node : TrieNode) (params : Params),
      (∀ s ∈ pattern, segWF s = true) →
      (∀ n ∈ patternNames pattern, σ n ≠ "") →
      bareNode node →
      searchSegs m (pattern.map (Seg.reqTok σ))
        (insertSegs m route (pattern.map Seg.patTok) node) params =
        (some route, bindAll σ pattern params) := by
  intro pattern
  induction pattern with
  | nil =>
    intro node params _ _ hbare
    simp [insertSegs, searchSegs, bindAll, hbare.1, mapGet, mapSet]
  | cons s rest ih =>
    intro node params hwf hσ hbare
    obtain ⟨hh, hc, hp, hw⟩ := hbare
    cases s with
    | lit l =>
      have hl := hwf (.lit l) (List.mem_cons_self _ _)
      simp only [segWF, Bool.and_eq_true, decide_eq_true_eq,
        Bool.not_eq_true'] at hl
      obtain ⟨⟨h1, h2⟩, h3⟩ := hl
      have ihx := ih (createTrieNode l) params
        (fun s hs => hwf s (List.mem_cons_of_mem _ hs))
        (fun n hn => hσ n (by simpa [patternNames] using hn))
        (bareNode_create _ _ _)
      simp only [List.map_cons, Seg.patTok, Seg.reqTok, insertSegs,
        searchSegs, h1, h2, h3, hc, hp, hw, mapGet, mapSet, Option.getD,
        if_false, Bool.false_eq_true, reduceIte, setChild_children,
        ihx, bindAll]
    | prm n =>
      have hn0 := hwf (.prm n) (List.mem_cons_self _ _)
      simp only [segWF, decide_eq_true_eq] at hn0
      have hσn : σ n ≠ "" := hσ n (by simp [patternNames])
      have hpt : jsStartsWith (Seg.patTok (.prm n)) ":" = true := by
        simp [Seg.patTok, jsStartsWith, List.isPrefixOf]
      have hptne : Seg.patTok (.prm n) ≠ "" := stringMkNe _ _
      have hslice : jsSlice1 (Seg.patTok (.prm n)) = n := by
        simp only [Seg.patTok, jsSlice1, List.tail_cons]
      have hTname :
          (insertSegs m route (rest.map Seg.patTok)
            (createTrieNode (Seg.patTok (.prm n)) true (some n))).paramName =
            some n := by
        rw [insertSegs_paramName]; rfl
      have ihx := ih (createTrieNode (Seg.patTok (.prm n)) true (some n))
        (paramsSet params n (σ n))
        (fun s hs => hwf s (List.mem_cons_of_mem _ hs))
        (fun n1 hn1 => hσ n1 (by simp [patternNames, hn1]))
        (bareNode_create _ _ _)
      simp only [Seg.patTok] at hpt hptne hslice hTname ihx
      simp only [List.map_cons, Seg.patTok, Seg.reqTok, insertSegs,
        searchSegs, hpt, hptne, hσn, hslice, hc, hp, hw, mapGet, mapSet,
        Option.getD, if_false, Bool.false_eq_true, reduceIte,
        setParam_children, setParam_paramChild, setParam_wildcardChild,
        hTname, hn0, ihx, bindAll]

/-- C2 counterexample: substituting the empty string — a string with no
`/` in it — for `:id` in `/users/:id` yields the request path `/users/`,
and matching fails instead of succeeding with a binding, because path
splitting drops empty segments. -/
theorem param_binding_fails_on_empty_segment :
    searchRoute (insertRoute .GET routeUsersParam emptyRouteTrie) .GET
      "/users/" = none := by decide

/-- C2 (amended): for every registered route whose path consists of
well-formed literal and `:name` segments with distinct nonempty names,
and every request whose path substitutes nonempty `/`-free strings at the
parameter positions (expressed through the path-splitting hypotheses),
trie matching succeeds with that route and binds `params[name]` to the
substituted segment for each name, names taken in the left-to-right
order of the `:name` tokens of the route's path. -/
theorem param_binding_of_substitution (m : HttpMethod) (route : Route)
    (pattern : List Seg) (σ : String → String) (reqPath : String)
    (hwf : ∀ s ∈ pattern, segWF s = true)
    (hnd : (patternNames pattern).Nodup)
    (hσ : ∀ n ∈ patternNames pattern, σ n ≠ "")
    (hpat : splitPath route.path = pattern.map Seg.patTok)
    (hreq : splitPath reqPath = pattern.map (Seg.reqTok σ)) :
    ∃ ps, searchRoute (insertRoute m route emptyRouteTrie) m reqPath =
        some (route, ps) ∧
      ∀ n ∈ patternNames pattern, paramsGet ps n = some (σ n) := by
  refine ⟨bindAll σ pattern [], ?_,
    fun n hn => paramsGet_bindAll_mem σ pattern [] n hnd hn⟩
  rw [searchRoute]
  have hroot : (insertRoute m route emptyRouteTrie) m =
      insertSegs m route (splitPath route.path) (createTrieNode "") := by
    rw [insertRoute]; simp [emptyRouteTrie]
  rw [hroot, hpat, hreq, searchSegs_insert_pattern m route σ pattern _ []
    hwf hσ (bareNode_create _ _ _)]

/-- Witness for the amended C2 theorem: `/users/:id` matched against
`/users/42` binds `id` to `42`. -/
theorem param_binding_witness :
    ∃ ps, searchRoute (insertRoute .GET routeUsersParam emptyRouteTrie)
        .GET "/users/42" = some (routeUsersParam, ps) ∧
      ∀ n ∈ patternNames [Seg.lit "users", Seg.prm "id"],
        paramsGet ps n = some ((fun _ => "42") n) :=
  param_binding_of_substitution .GET routeUsersParam
    [Seg.lit "users", Seg.prm "id"] (fun _ => "42") "/users/42"
    (by decide) (by decide) (fun n _ => stringMkNe '4' ['2']) (by decide)
    (by decide)

/-! ### Wildcard matching (claim C7) -/

/-- Searching a bare-rooted trie holding a route of shape
`static segments ++ [*]` with a request of shape
`static segments ++ (one or more further segments)` reaches the wildcard
node and binds `*` to the joined remainder. -/
theorem searchSegs_insert_wildcard (m : HttpMethod) (route : Route)
    (r0 : String) (rrest : List String) (hr0 : r0 ≠ "") :
    ∀ (lits : List String) (node : TrieNode) (params : Params),
      (∀ l ∈ lits, segWF (.lit l) = true) →
      bareNode node →
      searchSegs m (lits ++ (r0 :: rrest))
        (insertSegs m route (lits ++ ["*"]) node) params =
        (some route, paramsSet params "*" (joinSlash (r0 :: rrest))) := by
  intro lits
  induction lits with
  | nil =>
    intro node params _ hbare
    obtain ⟨hh, hc, hp, hw⟩ := hbare
    have hstar1 : ("*" : String) ≠ "" := by decide
    have hstar2 : jsStartsWith "*" ":" = false := by decide
    simp only [List.nil_append, insertSegs, searchSegs, hstar1, hstar2,
      hr0, hc, hp, hw, mapGet, mapSet, Option.getD, if_false,
      Bool.false_eq_true, reduceIte, setWildcard_children,
      setWildcard_paramChild, setWildcard_wildcardChild,
      setWildcard_handlers, setHandler_handlers, createTrieNode_fields]
  | cons l lits ih =>
    intro node params hwf hbare
    obtain ⟨hh, hc, hp, hw⟩ := hbare
    have hl := hwf l (List.mem_cons_self _ _)
    simp only [segWF, Bool.and_eq_true, decide_eq_true_eq,
      Bool.not_eq_true'] at hl
    obtain ⟨⟨h1, h2⟩, h3⟩ := hl
    have ihx := ih (createTrieNode l) params
      (fun s hs => hwf s (List.mem_cons_of_mem _ hs))
      (bareNode_create _ _ _)
    simp only [List.cons_append, List.append_eq, insertSegs, searchSegs,
      h1, h2, h3, hc, hp, hw, mapGet, mapSet, Option.getD, if_false,
      Bool.false_eq_true, reduceIte, setChild_children, ihx]

/-- C7 counterexample: a request path equal to the wildcard route's static
prefix — sharing that prefix — does not match: with `GET /files/*`
registered, `GET /files` finds no route (there is no remaining segment,
so segment exhaustion reaches a node with no handler). -/
theorem wildcard_no_match_on_bare_prefix :
    searchRoute (insertRoute .GET routeFilesWildcard emptyRouteTrie) .GET
      "/files" = none := by decide

/-- C7 (amended): a route registered with a trailing `*` segment matches
every request path that extends its static prefix by at least one
segment; matching binds `params['*']` to the remaining segments rejoined
with `/` and stops at the wildcard regardless of the remaining depth.  A
request equal to the bare static prefix does not match. -/
theorem wildcard_binding (m : HttpMethod) (route : Route)
    (lits : List String) (r0 : String) (rrest : List String)
    (reqPath : String)
    (hwf : ∀ l ∈ lits, segWF (.lit l) = true)
    (hr0 : r0 ≠ "")
    (hpat : splitPath route.path = lits ++ ["*"])
    (hreq : splitPath reqPath = lits ++ (r0 :: rrest)) :
    searchRoute (insertRoute m route emptyRouteTrie) m reqPath =
      some (route, [("*", joinSlash (r0 :: rrest))]) := by
  rw [searchRoute]
  have hroot : (insertRoute m route emptyRouteTrie) m =
      insertSegs m route (splitPath route.path) (createTrieNode "") := by
    rw [insertRoute]; simp [emptyRouteTrie]
  rw [hroot, hpat, hreq, searchSegs_insert_wildcard m route r0 rrest hr0
    lits _ [] hwf (bareNode_create _ _ _)]
  rfl

/-- Witness for the amended C7 theorem: `GET /files/*` matched against
`/files/a/b` binds `*` to `a/b`. -/
theorem wildcard_binding_witness :
    searchRoute (insertRoute .GET routeFilesWildcard emptyRouteTrie) .GET
      "/files/a/b" = some (routeFilesWildcard, [("*", joinSlash ["a", "b"])]) :=
  wildcard_binding .GET routeFilesWildcard ["files"] "a" ["b"] "/files/a/b"
    (by decide) (by decide) (by decide) (by decide)

/-! ### Request and response objects

The response object is the Node `ServerResponse` enhanced by
`response.ts`: `status(code)` assigns `statusCode`; `send(body)` ends the
exchange.  Ending an already-finished response writes nothing to the wire
(the platform reports `ERR_STREAM_ALREADY_FINISHED` instead of sending),
so the wire-visible status and body (`sentStatus`/`sentBody`) are
captured at the first `send` and are immutable afterwards, while the
`statusCode` field itself stays assignable.  `headersSent` is the
platform's "already finalized" flag. -/
structure Res where
  statusCode : Nat
  headersSent : Bool
  sentStatus : Option Nat
  sentBody : Option String
deriving DecidableEq

/-- A fresh response: Node initializes `statusCode` to 200. -/
def freshRes : Res := ⟨200, false, none, none⟩

/-- `res.status(code)`. -/
def resStatus (code : Nat) : Res → Res
  | ⟨_, hs, ss, sb⟩ => ⟨code, hs, ss, sb⟩

/-- `res.send(body)`: first finalization captures the current status code
and the body on the wire; a later call changes nothing on the wire. -/
def resSend (body : String) (res : Res) : Res :=
  if res.headersSent then res
  else ⟨res.statusCode, true, some res.statusCode, some body⟩

/-- The request object: `method` and `url` come from the transport;
`path`, `query` and `params` are assigned by the router (absent before
it runs). -/
structure Req where
  method : HttpMethod
  url : Option String
  path : Option String
  query : Params
  params : Params
deriving DecidableEq

def Req.setPath : Req → Option String → Req
  | ⟨m, u, _, q, ps⟩, p => ⟨m, u, p, q, ps⟩

def Req.setUrl : Req → Option String → Req
  | ⟨m, _, p, q, ps⟩, u => ⟨m, u, p, q, ps⟩

def Req.setQuery : Req → Params → Req
  | ⟨m, u, p, _, ps⟩, q => ⟨m, u, p, q, ps⟩

def Req.setParams : Req → Params → Req
  | ⟨m, u, p, q, _⟩, ps => ⟨m, u, p, q, ps⟩

/-! ### The MiddlewareManager (`middlewareManager.ts`) -/

/-- One registered global middleware (`MiddlewareConfig`). -/
structure MWEntry where
  path : Option String
  behavior : MWBehavior
deriving DecidableEq

/-- `MiddlewareManager.getApplicableMiddleware` (the computation the
per-path cache memoizes): keep, in registration order, every entry whose
path is absent (or empty, which is falsy in JS) or is a plain
string-prefix of the request path. -/
def getApplicableMiddleware : List MWEntry → String → List MWBehavior
  | [], _ => []
  | e :: rest, pathname =>
    match e.path with
    | none => e.behavior :: getApplicableMiddleware rest pathname
    | some mp =>
      if mp = "" || jsStartsWith pathname mp then
        e.behavior :: getApplicableMiddleware rest pathname
      else getApplicableMiddleware rest pathname

/-- How the global middleware chain of
`MiddlewareManager.executeMiddleware` stops. -/
inductive ChainStop where
  | reachedEnd
  | failed (e : String)
  | stalled
deriving DecidableEq

/-- One run of the `runMiddleware` chain over the applicable middleware,
up to (but not including) the terminal route handler:
* `next()` continues the chain;
* `next(err)` and a synchronous throw reject the chain;
* a middleware that returns a rejected promise without calling `next` is
  never awaited (the code only awaits `middlewareResult` inside the
  continuation installed by `next`), so the chain's promise never
  settles — the exchange stalls. -/
def runGlobalChain : List MWBehavior → Res → Res × ChainStop
  | [], res => (res, .reachedEnd)
  | b :: rest, res =>
    match b with
    | .nextOk => runGlobalChain rest res
    | .nextErr e => (res, .failed e)
    | .throwSync e => (res, .failed e)
    | .rejectPromise _ => (res, .stalled)
    | .sendThenNextOk st bd => runGlobalChain rest (resSend bd (resStatus st res))
    | .sendThenNextErr st bd e => (resSend bd (resStatus st res), .failed e)
    | .sendOnly st bd => (resSend bd (resStatus st res), .stalled)

/-- `MiddlewareManager.handleError`: log, then answer 500 only when the
response has not already been finalized. -/
def handleError (res : Res) : Res :=
  if res.headersSent then res
  else resSend "Internal Server Error" (resStatus 500 res)

/-! ### The RouteExecutor (`routeExecutor.ts`) -/

/-- Outcome of executing a matched route (or of the mounted-router scan):
the returned promise resolves, rejects, or never settles. -/
inductive RouteOutcome where
  | ok
  | err (e : String)
  | stall
deriving DecidableEq

/-- `RouteExecutor.executeHandler` (the no-route-middleware path): a
synchronous return resolves; `next(err)`, a synchronous throw, or a
rejected returned promise reject. -/
def executeHandler (handler : HBehavior) (res : Res) : Res × RouteOutcome :=
  match handler with
  | .hok => (res, .ok)
  | .hsend st b => (resSend b (resStatus st res), .ok)
  | .hthrow e => (res, .err e)
  | .hnextErr e => (res, .err e)

/-- The `runNext` chain of `executeRouteWithMiddlewares` for a route with
route-local middleware.  Unlike the global chain, a rejected returned
promise is observed immediately (`maybe.catch(e => runNext(e))`).  The
terminal handler, however, is only resolved through its `next` callback
or a returned promise — a handler that synchronously returns without
calling `next` leaves this promise pending (the response may well already
have been sent). -/
def runRouteChain (handler : HBehavior) :
    List MWBehavior → Res → Res × RouteOutcome
  | [], res =>
    match handler with
    | .hok => (res, .stall)
    | .hsend st b => (resSend b (resStatus st res), .stall)
    | .hthrow e => (res, .err e)
    | .hnextErr e => (res, .err e)
  | mw :: rest, res =>
    match mw with
    | .nextOk => runRouteChain handler rest res
    | .nextErr e => (res, .err e)
    | .throwSync e => (res, .err e)
    | .rejectPromise e => (res, .err e)
    | .sendThenNextOk st bd => runRouteChain handler rest (resSend bd (resStatus st res))
    | .sendThenNextErr st bd e => (resSend bd (resStatus st res), .err e)
    | .sendOnly st bd => (resSend bd (resStatus st res), .stall)

/-- `RouteExecutor.executeRouteWithMiddlewares`. -/
def executeRouteWithMiddlewares (route : Route) (res : Res) :
    Res × RouteOutcome :=
  match route.middlewares with
  | [] => executeHandler route.handler res
  | mws => runRouteChain route.handler mws res

/-! ### Query parsing (`PathUtils.parseQuery`)

`parseQuery` percent-decodes keys and values with the platform's
`decodeURIComponent`, which throws `URIError` on a malformed escape
sequence (a `%` not followed by two hexadecimal digits).  The decoder is
modelled byte-for-byte on the escape syntax; multi-byte UTF-8 validation
(a further source of `URIError` in the platform) is not modelled, so the
model fails on a subset of the inputs the platform fails on. -/

def hexVal (c : Char) : Option Nat :=
  if '0' ≤ c ∧ c ≤ '9' then some (c.toNat - 48)
  else if 'a' ≤ c ∧ c ≤ 'f' then some (c.toNat - 87)
  else if 'A' ≤ c ∧ c ≤ 'F' then some (c.toNat - 55)
  else none

def decodeURIComponentE : List Char → Except String (List Char)
  | [] => .ok []
  | '%' :: h1 :: h2 :: rest =>
    match hexVal h1, hexVal h2 with
    | some a, some b => do
      let ds ← decodeURIComponentE rest
      .ok (Char.ofNat (16 * a + b) :: ds)
    | _, _ => .error "URIError: URI malformed"
  | '%' :: _ => .error "URIError: URI malformed"
  | c :: rest => do
    let ds ← decodeURIComponentE rest
    .ok (c :: ds)

/-- The loop of `parseQuery` over the `&`-separated parts: an empty part
is skipped; a part with no `=` maps its decoded text to the empty string;
otherwise the text before the first `=` (when nonempty) maps to the
decoded text after it.  A decoding failure propagates as the thrown
`URIError`. -/
def parseQueryParts : List (List Char) → Params → Except String Params
  | [], acc => .ok acc
  | part :: rest, acc =>
    if part = [] then parseQueryParts rest acc
    else
      let keyChars := part.takeWhile (· ≠ '=')
      if keyChars.length = part.length then do
        let k ← decodeURIComponentE part
        parseQueryParts rest (paramsSet acc ⟨k⟩ "")
      else
        if keyChars = [] then parseQueryParts rest acc
        else do
          let k ← decodeURIComponentE keyChars
          let v ← decodeURIComponentE ((part.dropWhile (· ≠ '=')).tail)
          parseQueryParts rest (paramsSet acc ⟨k⟩ ⟨v⟩)

instance {ε α : Type} [DecidableEq ε] [DecidableEq α] :
    DecidableEq (Except ε α) := fun x y =>
  match x, y with
  | .ok a, .ok b =>
    if h : a = b then isTrue (by rw [h]) else isFalse (by simp [h])
  | .ok _, .error _ => isFalse (by simp)
  | .error _, .ok _ => isFalse (by simp)
  | .error a, .error b =>
    if h : a = b then isTrue (by rw [h]) else isFalse (by simp [h])

/-- `PathUtils.parseQuery`: everything after the first `?` of the URL,
split on `&`. -/
def parseQuery (url : Option String) : Except String Params :=
  match url with
  | none => .ok []
  | some u =>
    match (u.data.dropWhile (· ≠ '?')) with
    | [] => .ok []
    | _ :: queryString =>
      if queryString = [] then .ok []
      else parseQueryParts (splitOnChar '&' queryString) []

/-! ### The RouterCore (`routerCore.ts`)

A router owns its registered routes (in registration order), its
middleware manager's entries, and its mounted child routers; the derived
exact-match table and trie are recovered from the registration order.
The mount list is a dedicated inductive so that the recursion through
the mount tree is structural. -/

mutual
inductive RouterCore where
  | mk (routes : List Route) (mws : List MWEntry) (mounts : Mounts)
inductive Mounts where
  | nil
  | cons (path : Option String) (child : RouterCore) (rest : Mounts)
end

def RouterCore.routes : RouterCore → List Route
  | .mk r _ _ => r

def RouterCore.mws : RouterCore → List MWEntry
  | .mk _ m _ => m

def RouterCore.mounts : RouterCore → Mounts
  | .mk _ _ ms => ms

mutual
/-- `RouterCore.getRoutes`: own routes, then every mounted child's routes
(recursively) with the mount path prepended and normalized.  The spread
copy re-points `path` but leaves every other field — in particular the
compiled regex — unchanged. -/
def getRoutes : RouterCore → List Route
  | .mk routes _ mounts => routes ++ getRoutesM mounts

def getRoutesM : Mounts → List Route
  | .nil => []
  | .cons p child rest =>
    ((getRoutes child).map (fun r =>
      let combined := match p with
        | some mp => mp ++ r.path
        | none => r.path
      ⟨r.method, normalizePath combined, r.handler, r.middlewares,
        r.regexSource⟩)) ++ getRoutesM rest
end

/-- The exact-match fast path: `routeMap` is keyed by
`method:normalizedPath` and holds routes in registration order;
`executeRoute` takes the first entry. -/
def exactLookup (routes : List Route) (method : HttpMethod)
    (pathname : String) : Option Route :=
  routes.find? (fun r => decide (r.method = method) && decide (r.path = pathname))

/-- The trie as built by the `addRoute` calls in registration order. -/
def buildTrie (routes : List Route) : RouteTrie :=
  routes.foldl (fun t r => insertRoute r.method r t) emptyRouteTrie

/-- `PathUtils.shouldHandleWithMountedRouter`: a prefixless mount always
handles; a prefixed mount handles the prefix itself and everything under
`prefixPlusSlash`. -/
def shouldHandleWithMountedRouter (mpath : Option String)
    (pathname : String) : Bool :=
  match mpath with
  | none => true
  | some mp =>
    if mp = "/" then true
    else if pathname = mp then true
    else jsStartsWith pathname ⟨mp.data ++ ['/']⟩

/-- JS `x || '/'` on a string. -/
def orSlash (s : String) : String := if s = "" then "/" else s

/-! ### The compiled route regex

`addRoute` builds, for a path containing `:`, the anchored regular
expression obtained by replacing every `:name` (a colon followed by one
or more non-slash characters, greedily) with the group `([^/]+)`.  The
token list and the backtracking boolean matcher below implement exactly
that expression for route paths whose literal characters carry no other
regex metacharacters (true of ordinary route paths). -/

inductive PatTok where
  | lit (c : Char)
  | group
deriving DecidableEq

/-- Fueled tokenizer; every step shortens the text, so `length + 1` fuel
always suffices. -/
def patToksF : Nat → List Char → List PatTok
  | 0, _ => []
  | _ + 1, [] => []
  | f + 1, ':' :: rest =>
    let run := rest.takeWhile (· ≠ '/')
    if run = [] then .lit ':' :: patToksF f rest
    else .group :: patToksF f (rest.drop run.length)
  | f + 1, c :: rest => .lit c :: patToksF f rest

def patToks (cs : List Char) : List PatTok := patToksF (cs.length + 1) cs

mutual
/-- Anchored matching of the token list against the text.  The fuel
argument only drives the recursion; every step shortens
`tokens + text`, so `length tokens + length text + 1` fuel always
suffices. -/
def patMatchF : Nat → List PatTok → List Char → Bool
  | 0, _, _ => false
  | _ + 1, [], [] => true
  | _ + 1, [], _ :: _ => false
  | _ + 1, .lit _ :: _, [] => false
  | f + 1, .lit c :: ts, d :: ds => c = d && patMatchF f ts ds
  | f + 1, .group :: ts, ds => groupMatchF f ts ds

/-- `([^/]+)` followed by the remaining tokens: consume one or more
non-slash characters, backtracking over the split point. -/
def groupMatchF : Nat → List PatTok → List Char → Bool
  | 0, _, _ => false
  | _ + 1, _, [] => false
  | f + 1, ts, c :: ds =>
    if c = '/' then false else (patMatchF f ts ds || groupMatchF f ts ds)
end

def patMatch (ts : List PatTok) (ds : List Char) : Bool :=
  patMatchF (ts.length + ds.length + 1) ts ds

/-- `route.regex?.test(finalPath)`: false when no regex was compiled. -/
def regexTestR (r : Route) (finalPath : String) : Bool :=
  match r.regexSource with
  | some rp => patMatch (patToks rp.data) finalPath.data
  | none => false

/-- The `hasRoute` ownership check of `executeRoute` before delegating to
a prefixed mounted router: some route of the child (recursively, through
`getRoutes`) with the right method whose path equals the stripped path
exactly or whose compiled regex matches it. -/
def hasRouteFor (child : RouterCore) (method : HttpMethod)
    (finalPath : String) : Bool :=
  (getRoutes child).any (fun r =>
    decide (r.method = method) &&
    (decide (r.path = finalPath) || regexTestR r finalPath))

/-- Outcome of `RouterCore.handle`'s returned promise. -/
inductive HandleOutcome where
  | resolved
  | rejected (e : String)
  | stalled
deriving DecidableEq

/-- Conditional restore of `request.path`/`request.url` in the `finally`
block of `handleMountedRouter` (a field is restored only when its
original value was defined). -/
def restoreReq (rq : Req) (originalPath originalUrl : Option String) : Req :=
  let r1 := match originalPath with
    | some p => rq.setPath (some p)
    | none => rq
  match originalUrl with
  | some u => r1.setUrl (some u)
  | none => r1

/-- The request rewritten for delegation to a mounted child: for a
prefixed mount, `request.path` becomes the normalized prefix-stripped
path and `request.url` that path plus the original query suffix; a
prefixless mount passes the request through unchanged. -/
def delegatedReq (mpath : Option String) (req : Req) (pathname : String) :
    Req :=
  match mpath with
  | none => req
  | some mp =>
    let finalAdjusted := normalizePath (orSlash (jsSliceFrom pathname mp.data.length))
    let qsuffix :=
      match req.url with
      | some u => if containsChar '?' u then fromChar '?' u else ""
      | none => ""
    (req.setPath (some finalAdjusted)).setUrl (some (finalAdjusted ++ qsuffix))

mutual
/-- `RouterCore.handle`: derive the pathname from the URL (everything
before the first `?`, `/` when the URL is absent), normalize it, assign
`request.path`, parse the query into `request.query` — a `URIError`
thrown here escapes `handle` before any error handling is installed —
then run the applicable global middleware with route resolution
(`executeRoute`: exact lookup, then trie, then the mounted-router scan,
inlined here so that the recursion through the mount tree is structural)
as the chain's terminal action.  A chain error is caught and answered by
`handleError`; an error propagating out of route execution (including a
mounted child's rejection) reaches the same catch. -/
def handle : RouterCore → Req → Res → Req × Res × HandleOutcome
  | .mk routes mws mounts, req, res =>
    let pathname := normalizePath (takeUntilChar '?' (req.url.getD "/"))
    let req1 := req.setPath (some pathname)
    match parseQuery req.url with
    | .error e => (req1, res, .rejected e)
    | .ok q =>
      let req2 := req1.setQuery q
      match runGlobalChain (getApplicableMiddleware mws pathname) res with
      | (rs, .failed _) => (req2, handleError rs, .resolved)
      | (rs, .stalled) => (req2, rs, .stalled)
      | (rs, .reachedEnd) =>
        let step :=
          match exactLookup routes req.method pathname with
          | some route =>
            let rout := executeRouteWithMiddlewares route rs
            (req2.setParams [], rout.1, rout.2)
          | none =>
            match searchRoute (buildTrie routes) req.method pathname with
            | some (route, ps) =>
              let rout := executeRouteWithMiddlewares route rs
              (req2.setParams ps, rout.1, rout.2)
            | none => scanMounts mounts req2 rs req.method pathname
        match step with
        | (rq, rs2, .ok) => (rq, rs2, .resolved)
        | (rq, rs2, .err _) => (rq, handleError rs2, .resolved)
        | (rq, rs2, .stall) => (rq, rs2, .stalled)

/-- The mounted-router loop of `executeRoute`: for each mounted router in
registration order, an eligible prefixless mount is delegated to
unconditionally; an eligible prefixed mount is delegated to only when
the `hasRoute` ownership check succeeds for the stripped path, otherwise
the scan continues with the later siblings; when no mount takes the
request, respond `404 Not Found`.  Delegation (`handleMountedRouter`,
inlined here for structural recursion) remembers `request.path` and
`request.url`, rewrites them via `delegatedReq`, lets the child handle
the request, and restores the remembered fields in the `finally` block —
which runs on resolution and rejection alike, but never when the child's
handling stalls, since the `await` then never completes. -/
def scanMounts : Mounts → Req → Res → HttpMethod → String →
    Req × Res × RouteOutcome
  | .nil, req, res, _, _ => (req, resSend "Not Found" (resStatus 404 res), .ok)
  | .cons mpath child rest, req, res, method, pathname =>
    if shouldHandleWithMountedRouter mpath pathname then
      match mpath with
      | none =>
        match handle child (delegatedReq none req pathname) res with
        | (rq, rs, .resolved) => (restoreReq rq req.path req.url, rs, .ok)
        | (rq, rs, .rejected e) => (restoreReq rq req.path req.url, rs, .err e)
        | (rq, rs, .stalled) => (rq, rs, .stall)
      | some mp =>
        let finalPath := normalizePath (orSlash (jsSliceFrom pathname mp.data.length))
        if hasRouteFor child method finalPath then
          match handle child (delegatedReq (some mp) req pathname) res with
          | (rq, rs, .resolved) => (restoreReq rq req.path req.url, rs, .ok)
          | (rq, rs, .rejected e) => (restoreReq rq req.path req.url, rs, .err e)
          | (rq, rs, .stalled) => (rq, rs, .stall)
        else scanMounts rest req res method pathname
    else scanMounts rest req res method pathname
end

/-- `RouterCore.handleMountedRouter` as its own definition (the body the
delegation arms of `scanMounts` inline): remember the original
`request.path`/`request.url`, rewrite them for the child, await the
child's handling, restore on resolution and rejection; a stalled child
leaves the rewrite in place forever. -/
def handleMountedRouter (mpath : Option String) (child : RouterCore)
    (req : Req) (res : Res) (pathname : String) : Req × Res × RouteOutcome :=
  match handle child (delegatedReq mpath req pathname) res with
  | (rq, rs, .resolved) => (restoreReq rq req.path req.url, rs, .ok)
  | (rq, rs, .rejected e) => (restoreReq rq req.path req.url, rs, .err e)
  | (rq, rs, .stalled) => (rq, rs, .stall)

/-- `RouterCore.executeRoute` as its own definition (the terminal action
`handle` inlines): exact `method:path` lookup first, then the trie, then
the mounted-router scan ending in the 404 fallback. -/
def executeRoute (rc : RouterCore) (req : Req) (res : Res)
    (method : HttpMethod) (pathname : String) : Req × Res × RouteOutcome :=
  match exactLookup rc.routes method pathname with
  | some route =>
    let rout := executeRouteWithMiddlewares route res
    (req.setParams [], rout.1, rout.2)
  | none =>
    match searchRoute (buildTrie rc.routes) method pathname with
    | some (route, ps) =>
      let rout := executeRouteWithMiddlewares route res
      (req.setParams ps, rout.1, rout.2)
    | none => scanMounts rc.mounts req res method pathname

/-- The delegation arms of `scanMounts` are exactly
`handleMountedRouter`. -/
theorem scanMounts_cons (mpath : Option String) (child : RouterCore)
    (rest : Mounts) (req : Req) (res : Res) (method : HttpMethod)
    (pathname : String) :
    scanMounts (.cons mpath child rest) req res method pathname =
      (if shouldHandleWithMountedRouter mpath pathname then
        match mpath with
        | none => handleMountedRouter none child req res pathname
        | some mp =>
          if hasRouteFor child method
              (normalizePath (orSlash (jsSliceFrom pathname mp.data.length))) then
            handleMountedRouter (some mp) child req res pathname
          else scanMounts rest req res method pathname
      else scanMounts rest req res method pathname) := by
  cases mpath with
  | none => rfl
  | some mp => rfl

/-- The route-resolution step inlined in `handle` is exactly
`executeRoute`. -/
theorem handle_executeRoute (routes : List Route) (mws : List MWEntry)
    (mounts : Mounts) (req : Req) (res : Res) :
    handle (.mk routes mws mounts) req res =
      (let pathname := normalizePath (takeUntilChar '?' (req.url.getD "/"))
       let req1 := req.setPath (some pathname)
       match parseQuery req.url with
       | .error e => (req1, res, .rejected e)
       | .ok q =>
         let req2 := req1.setQuery q
         match runGlobalChain (getApplicableMiddleware mws pathname) res with
         | (rs, .failed _) => (req2, handleError rs, .resolved)
         | (rs, .stalled) => (req2, rs, .stalled)
         | (rs, .reachedEnd) =>
           match executeRoute (.mk routes mws mounts) req2 rs req.method
               pathname with
           | (rq, rs2, .ok) => (rq, rs2, .resolved)
           | (rq, rs2, .err _) => (rq, handleError rs2, .resolved)
           | (rq, rs2, .stall) => (rq, rs2, .stalled)) := rfl

@[simp] theorem setPath_fields (req : Req) (p : Option String) :
    (req.setPath p).path = p ∧ (req.setPath p).url = req.url ∧
    (req.setPath p).method = req.method ∧ (req.setPath p).query = req.query ∧
    (req.setPath p).params = req.params := by
  cases req; exact ⟨rfl, rfl, rfl, rfl, rfl⟩

@[simp] theorem setUrl_fields (req : Req) (u : Option String) :
    (req.setUrl u).url = u ∧ (req.setUrl u).path = req.path ∧
    (req.setUrl u).method = req.method ∧ (req.setUrl u).query = req.query ∧
    (req.setUrl u).params = req.params := by
  cases req; exact ⟨rfl, rfl, rfl, rfl, rfl⟩

/-! ### Claim C8: middleware applicability -/

/-- The boolean applicability test of one middleware entry for a path. -/
def mwApplies (e : MWEntry) (pathname : String) : Bool :=
  match e.path with
  | none => true
  | some mp => mp = "" || jsStartsWith pathname mp

/-- C8: for every request path the applicable global middleware is exactly
the subsequence, in registration order, of the entries whose path is
absent or is a plain string-prefix of the path (not segment-aware); hence
an entry registered for `/api` applies to `/api`, `/api/x` and also
`/apikey/x`, but never to `/public`. -/
theorem applicable_middleware_is_filter :
    (∀ (mws : List MWEntry) (pathname : String),
      getApplicableMiddleware mws pathname =
        (mws.filter (fun e => mwApplies e pathname)).map (·.behavior)) ∧
    getApplicableMiddleware [⟨some "/api", .nextOk⟩] "/api" = [.nextOk] ∧
    getApplicableMiddleware [⟨some "/api", .nextOk⟩] "/api/x" = [.nextOk] ∧
    getApplicableMiddleware [⟨some "/api", .nextOk⟩] "/apikey/x" = [.nextOk] ∧
    getApplicableMiddleware [⟨some "/api", .nextOk⟩] "/public" = [] ∧
    getApplicableMiddleware [⟨none, .nextOk⟩] "/anything" = [.nextOk] := by
  refine ⟨?_, by decide, by decide, by decide, by decide, by decide⟩
  intro mws pathname
  induction mws with
  | nil => rfl
  | cons e rest ih =>
    rw [getApplicableMiddleware]
    cases he : e.path with
    | none =>
      simp [List.filter_cons, mwApplies, he, ih]
    | some mp =>
      by_cases hmp : (mp = "" || jsStartsWith pathname mp) = true
      · simp [List.filter_cons, mwApplies, he, hmp, ih]
      · simp only [Bool.or_eq_true] at hmp
        push_neg at hmp
        simp [List.filter_cons, mwApplies, he, hmp.1, hmp.2, ih]

/-! ### Claim C5: middleware error propagation -/

/-- A chain whose prefix only calls `next()` and then hits a middleware
that calls `next(err)` or throws rejects with that error, leaving the
response untouched and never reaching the rest of the chain. -/
theorem runGlobalChain_failed (e : String) :
    ∀ (pre post : List MWBehavior) (b : MWBehavior) (res : Res),
      (∀ x ∈ pre, x = .nextOk) →
      (b = .nextErr e ∨ b = .throwSync e) →
      runGlobalChain (pre ++ b :: post) res = (res, .failed e) := by
  intro pre
  induction pre with
  | nil =>
    intro post b res _ hb
    rcases hb with hb | hb <;> subst hb <;> rfl
  | cons x rest ih =>
    intro post b res hpre hb
    have hx : x = .nextOk := hpre x (List.mem_cons_self _ _)
    subst hx
    rw [List.cons_append, runGlobalChain]
    exact ih post b res (fun y hy => hpre y (List.mem_cons_of_mem _ hy)) hb

/-- The demo route and routers used by the concrete middleware and
mounting scenarios. -/
def routePing : Route := ⟨.GET, "/ping", .hsend 200 "pong", [], none⟩

def routeFileHandler : Route := ⟨.GET, "/files/*", .hsend 200 "file", [], none⟩

def childPing : RouterCore := .mk [routePing] [] .nil

def parentPing : RouterCore := .mk [] [] (.cons (some "/v1") childPing .nil)

def childFiles : RouterCore := .mk [routeFileHandler] [] .nil

def parentFiles : RouterCore := .mk [] [] (.cons (some "/v1") childFiles .nil)

/-- A GET request for a URL, as delivered by the transport (no
router-assigned fields yet). -/
def mkGetReq (u : String) : Req := ⟨.GET, some u, none, [], []⟩

/-- C5 counterexample: a global middleware that returns a rejected
promise without calling `next` does not produce the claimed 500 — the
chain's promise never settles, the response stays untouched, and the
exchange stalls (the code only awaits the middleware's returned promise
inside the continuation installed by `next`). -/
theorem middleware_rejected_promise_stalls :
    (handle (.mk [routePing] [⟨none, .rejectPromise "boom"⟩] .nil)
      (mkGetReq "/ping") freshRes).2 = (freshRes, .stalled) := by decide

/-- C5 (amended): if a global middleware calls `next(error)` or throws
synchronously (after a prefix of middleware that only call `next()`),
the remaining chain and route resolution are skipped — the result does
not depend on the rest of the chain, the routes, or the mounts — and the
top-level catch answers 500 with body `Internal Server Error` when the
response is still unsent; the error text itself never reaches the
response.  A middleware that merely returns a rejected promise without
calling `next` instead stalls the exchange with no response at all. -/
theorem middleware_error_skips_routes (routes : List Route)
    (mws : List MWEntry) (mounts : Mounts) (req : Req) (res : Res)
    (q : Params) (pre post : List MWBehavior) (b : MWBehavior) (e : String)
    (hq : parseQuery req.url = .ok q)
    (happ : getApplicableMiddleware mws
      (normalizePath (takeUntilChar '?' (req.url.getD "/"))) =
      pre ++ b :: post)
    (hpre : ∀ x ∈ pre, x = .nextOk)
    (hb : b = .nextErr e ∨ b = .throwSync e)
    (hsent : res.headersSent = false) :
    handle (.mk routes mws mounts) req res =
      (((req.setPath (some (normalizePath (takeUntilChar '?'
          (req.url.getD "/"))))).setQuery q),
       resSend "Internal Server Error" (resStatus 500 res), .resolved) := by
  rw [handle, hq, happ, runGlobalChain_failed e pre post b res hpre hb]
  simp only [handleError]
  have hs2 : (resStatus 500 res).headersSent = false := by
    cases res; exact hsent
  cases hres : res.headersSent with
  | true => rw [hres] at hsent; cases hsent
  | false => rfl

/-- Witness for the amended C5 theorem: one middleware calling
`next(new Error("boom"))` ahead of a registered route yields 500
`Internal Server Error` and the route handler's output nowhere. -/
theorem middleware_error_witness :
    handle (.mk [routePing] [⟨none, .nextErr "boom"⟩] .nil)
      (mkGetReq "/ping") freshRes =
      (((mkGetReq "/ping").setPath (some "/ping")).setQuery [],
       resSend "Internal Server Error" (resStatus 500 freshRes), .resolved) :=
  middleware_error_skips_routes [routePing] [⟨none, .nextErr "boom"⟩] .nil
    (mkGetReq "/ping") freshRes [] [] [] (.nextErr "boom") "boom"
    (by decide) (by decide) (fun x hx => absurd hx (by simp))
    (Or.inl rfl) (by decide)

/-! ### Claim C6: fallback writes on an already-finalized response -/

/-- C6: when the response has already been finalized, neither fallback
writes a body.  The 500 fallback (`MiddlewareManager.handleError`) checks
`headersSent` explicitly and leaves the response entirely unchanged; the
404 fallback runs `res.status(404).send('Not Found')` unconditionally,
but finalizing an already-finished response writes nothing to the wire,
so the sent status and body are unchanged (only the local `statusCode`
field is reassigned). -/
theorem fallback_guarded_when_sent :
    (∀ res : Res, res.headersSent = true → handleError res = res) ∧
    (∀ (req : Req) (res : Res) (method : HttpMethod) (pathname : String),
      res.headersSent = true →
      scanMounts .nil req res method pathname =
        (req, resStatus 404 res, .ok) ∧
      (resStatus 404 res).sentStatus = res.sentStatus ∧
      (resStatus 404 res).sentBody = res.sentBody ∧
      (resStatus 404 res).headersSent = true) := by
  constructor
  · intro res hs
    rw [handleError, if_pos hs]
  · intro req res method pathname hs
    have h404 : (resStatus 404 res).headersSent = true := by
      cases res; exact hs
    refine ⟨?_, by cases res; rfl, by cases res; rfl, h404⟩
    rw [scanMounts, resSend, if_pos h404]

/-- Witness for C6 at a concrete finalized response (a middleware already
answered 200 `ok`): the 500 fallback leaves it untouched and the 404
fallback does not alter the wire-visible status or body. -/
theorem fallback_guarded_witness :
    handleError (resSend "ok" freshRes) = resSend "ok" freshRes ∧
    (scanMounts .nil (mkGetReq "/x") (resSend "ok" freshRes) .GET "/x").2.1.sentBody =
      some "ok" :=
  ⟨(fallback_guarded_when_sent.1 (resSend "ok" freshRes) (by decide)),
   by
    rw [(fallback_guarded_when_sent.2 (mkGetReq "/x") (resSend "ok" freshRes)
      .GET "/x" (by decide)).1]
    decide⟩

/-! ### Claim C10: parseQuery is not total -/

/-- C10: `parseQuery` throws on a malformed percent-escape (`/x?a=%`
gives `decodeURIComponent('%')`, a `URIError`), and since `handle`
invokes it before any error handling is installed, `handle`'s promise
rejects for any router whatsoever with the response untouched — the 500
fallback writes nothing. -/
theorem parseQuery_malformed_rejects (rc : RouterCore) (req : Req)
    (res : Res) (hurl : req.url = some "/x?a=%") :
    parseQuery (some "/x?a=%") = .error "URIError: URI malformed" ∧
    handle rc req res =
      (req.setPath (some "/x"), res, .rejected "URIError: URI malformed") := by
  refine ⟨by decide, ?_⟩
  cases rc with
  | mk routes mws mounts =>
    rw [handle, hurl]
    rfl

/-- Witness for C10 at a concrete request: the promise rejects and no
response is written. -/
theorem parseQuery_malformed_witness :
    parseQuery (some "/x?a=%") = .error "URIError: URI malformed" ∧
    handle parentPing (mkGetReq "/x?a=%") freshRes =
      ((mkGetReq "/x?a=%").setPath (some "/x"), freshRes,
       .rejected "URIError: URI malformed") :=
  parseQuery_malformed_rejects parentPing (mkGetReq "/x?a=%") freshRes rfl

/-! ### Claim C4: delegation rewrites and restores `path`/`url` -/

/-- C4: during delegation to a prefixed mounted child the request's
`path` and `url` are rewritten to the prefix-stripped form (the url keeps
the original query suffix) while `method`, `query` and `params` are left
alone; afterwards `path` and `url` are restored to their original values
on both settled outcomes — resolution and rejection alike — and every
other field is exactly what the child's handling left behind. -/
theorem mounted_delegation_restores (mp : String) (child : RouterCore)
    (req : Req) (res : Res) (pathname p0 u0 : String)
    (hp : req.path = some p0) (hu : req.url = some u0) :
    (delegatedReq (some mp) req pathname).path =
      some (normalizePath (orSlash (jsSliceFrom pathname mp.data.length))) ∧
    (delegatedReq (some mp) req pathname).url =
      some (normalizePath (orSlash (jsSliceFrom pathname mp.data.length)) ++
        (if containsChar '?' u0 then fromChar '?' u0 else "")) ∧
    (delegatedReq (some mp) req pathname).method = req.method ∧
    (delegatedReq (some mp) req pathname).query = req.query ∧
    (delegatedReq (some mp) req pathname).params = req.params ∧
    (∀ rq rs,
      handle child (delegatedReq (some mp) req pathname) res =
        (rq, rs, .resolved) →
      handleMountedRouter (some mp) child req res pathname =
        ((rq.setPath (some p0)).setUrl (some u0), rs, .ok)) ∧
    (∀ rq rs e,
      handle child (delegatedReq (some mp) req pathname) res =
        (rq, rs, .rejected e) →
      handleMountedRouter (some mp) child req res pathname =
        ((rq.setPath (some p0)).setUrl (some u0), rs, .err e)) := by
  have hd : delegatedReq (some mp) req pathname =
      (req.setPath (some (normalizePath (orSlash
        (jsSliceFrom pathname mp.data.length))))).setUrl
        (some (normalizePath (orSlash (jsSliceFrom pathname mp.data.length)) ++
          (if containsChar '?' u0 then fromChar '?' u0 else ""))) := by
    rw [delegatedReq, hu]
  refine ⟨?_, ?_, ?_, ?_, ?_, ?_, ?_⟩
  · rw [hd]; cases req; rfl
  · rw [hd]; cases req; rfl
  · rw [hd]; cases req; rfl
  · rw [hd]; cases req; rfl
  · rw [hd]; cases req; rfl
  · intro rq rs hinner
    rw [handleMountedRouter, hinner, hp, hu]
    rfl
  · intro rq rs e hinner
    rw [handleMountedRouter, hinner, hp, hu]
    rfl

/-- Witness for C4 at a concrete delegation whose child handling errors
(a malformed query makes the child's `handle` reject): `path` and `url`
are still restored to `/v1/ping` and `/v1/ping?a=%`. -/
theorem mounted_delegation_restores_witness :
    handleMountedRouter (some "/v1") childPing
      ⟨.GET, some "/v1/ping?a=%", some "/v1/ping", [], []⟩ freshRes
      "/v1/ping" =
      (((⟨.GET, some "/ping?a=%", some "/ping", [], []⟩ : Req).setPath
          (some "/v1/ping")).setUrl (some "/v1/ping?a=%"), freshRes,
        .err "URIError: URI malformed") :=
  (mounted_delegation_restores "/v1" childPing
    ⟨.GET, some "/v1/ping?a=%", some "/v1/ping", [], []⟩ freshRes
    "/v1/ping" "/v1/ping" "/v1/ping?a=%" rfl rfl).2.2.2.2.2.2
    ⟨.GET, some "/ping?a=%", some "/ping", [], []⟩ freshRes
    "URIError: URI malformed" (by decide)

/-! ### Claim C3: delegation to mounted routers -/

/-- C3 counterexample: the child owns — and, handled directly, serves —
`GET /files/a` through its wildcard route, yet the parent's ownership
check sees neither an exact nor a regex match, does not delegate, and
falls through to its own 404. -/
theorem mounted_wildcard_not_delegated :
    hasRouteFor childFiles .GET "/files/a" = false ∧
    (handle childFiles (mkGetReq "/files/a") freshRes).2.1.sentStatus =
      some 200 ∧
    (handle childFiles (mkGetReq "/files/a") freshRes).2.1.sentBody =
      some "file" ∧
    (handle parentFiles (mkGetReq "/v1/files/a") freshRes).2.1.sentStatus =
      some 404 ∧
    (handle parentFiles (mkGetReq "/v1/files/a") freshRes).2.1.sentBody =
      some "Not Found" := by decide

/-- C3 (amended): for an eligible prefixed mount, the parent delegates if
and only if the child (recursively, through its own mounts, via
`getRoutes`) owns a route of the request's method whose registered path
equals the prefix-stripped path exactly or whose compiled `:param` regex
matches it — routes reachable only through a wildcard segment are not
detected, so such requests are not delegated; when no delegation
happens the scan continues with the later sibling mounts and ultimately
the parent's own 404, so `/v1/pingx` with no matching child route falls
through to the parent's 404 while `/v1/ping` reaches the child's
handler. -/
theorem mounted_delegation_guard :
    (∀ (mp : String) (child : RouterCore) (rest : Mounts) (req : Req)
       (res : Res) (method : HttpMethod) (pathname : String),
      shouldHandleWithMountedRouter (some mp) pathname = true →
      (hasRouteFor child method
          (normalizePath (orSlash (jsSliceFrom pathname mp.data.length))) =
          true →
        scanMounts (.cons (some mp) child rest) req res method pathname =
          handleMountedRouter (some mp) child req res pathname) ∧
      (hasRouteFor child method
          (normalizePath (orSlash (jsSliceFrom pathname mp.data.length))) =
          false →
        scanMounts (.cons (some mp) child rest) req res method pathname =
          scanMounts rest req res method pathname)) ∧
    (∀ (child : RouterCore) (method : HttpMethod) (fp : String),
      hasRouteFor child method fp = true ↔
        ∃ r ∈ getRoutes child, r.method = method ∧
          (r.path = fp ∨ regexTestR r fp = true)) ∧
    (handle parentPing (mkGetReq "/v1/ping") freshRes).2.1 =
      resSend "pong" (resStatus 200 freshRes) ∧
    (handle parentPing (mkGetReq "/v1/pingx") freshRes).2.1 =
      resSend "Not Found" (resStatus 404 freshRes) := by
  refine ⟨?_, ?_, by decide, by decide⟩
  · intro mp child rest req res method pathname helig
    rw [scanMounts_cons, if_pos helig]
    constructor
    · intro hown
      simp only [hown, reduceIte]
    · intro hown
      simp only [hown, Bool.false_eq_true, reduceIte]
  · intro child method fp
    rw [hasRouteFor, List.any_eq_true]
    constructor
    · rintro ⟨r, hr, hpred⟩
      simp only [Bool.and_eq_true, Bool.or_eq_true, decide_eq_true_eq] at hpred
      exact ⟨r, hr, hpred.1, hpred.2⟩
    · rintro ⟨r, hr, hm, hmatch⟩
      refine ⟨r, hr, ?_⟩
      simp only [Bool.and_eq_true, Bool.or_eq_true, decide_eq_true_eq]
      exact ⟨hm, hmatch⟩

/-- Witness for the amended C3 theorem: the `/v1` mount owns `/ping`
(exactly), so the scan delegates. -/
theorem mounted_delegation_guard_witness :
    shouldHandleWithMountedRouter (some "/v1") "/v1/ping" = true ∧
    hasRouteFor childPing .GET
      (normalizePath (orSlash (jsSliceFrom "/v1/ping" "/v1".data.length))) =
      true ∧
    scanMounts (.cons (some "/v1") childPing .nil) (mkGetReq "/v1/ping")
      freshRes .GET "/v1/ping" =
      handleMountedRouter (some "/v1") childPing (mkGetReq "/v1/ping")
        freshRes "/v1/ping" :=
  ⟨by decide, by decide,
   (mounted_delegation_guard.1 "/v1" childPing .nil (mkGetReq "/v1/ping")
     freshRes .GET "/v1/ping" (by decide)).1 (by decide)⟩

end Bearn
